import Mathlib

/-!
Verification development for the DeepClaude stream-orchestration engine
(`app/clients/deepseek_client.py`, `app/clients/claude_client.py`,
`app/deepclaude/deepclaude.py`).

The Python code is shallowly embedded: each decoder and coordinator task
becomes a pure Lean function over explicit state, and the JSON layer of a
provider line is abstracted into the datum the code extracts from it
(whether the line carries the `data: ` marker, whether its payload is the
termination sentinel, whether `json.loads` raises, and otherwise the
`choices[0].delta` fields the decoders read).
-/

namespace DeepClaude

/-- Semantic event kinds produced by the decoders: `reasoning` and `content`
from the DeepSeek decoder, `answer` from the Claude decoder. -/
inductive Kind where
  | reasoning
  | content
  | answer
deriving DecidableEq

/-- A semantic event `(kind, text)` as yielded by `stream_chat`. -/
abbrev Event := Kind × String

/-- Character-list version of: the first list starts the second list. -/
def chListPre : List Char → List Char → Bool
  | [], _ => true
  | _ :: _, [] => false
  | a :: as, b :: bs => (a == b) && chListPre as bs

/-- Character-list version of: the first list occurs somewhere in the second. -/
def chSub : List Char → List Char → Bool
  | pat, [] => pat.isEmpty
  | pat, c :: rest => chListPre pat (c :: rest) || chSub pat rest

/-- Python substring test `pat in s`. -/
def strContains (s pat : String) : Bool :=
  chSub pat.toList s.toList

/-- Truthiness of `dict.get(key)` for a string-valued field: `none` models an
absent key or a JSON `null` (both give Python `None`), `some s` a present
string; only a present non-empty string is truthy. -/
def truthy : Option String → Bool
  | none => false
  | some s => s != ""

/-- The `choices[0].delta` object as read by `DeepSeekClient.stream_chat`:
the two string fields the decoder inspects, each `none` when absent or null. -/
structure DeltaObj where
  reasoning_content : Option String
  content : Option String
deriving DecidableEq

/-- Outcome of handling the payload of one `data: ` line:
the termination sentinel `[DONE]`, a payload on which `json.loads` raises
`JSONDecodeError`, or a parsed JSON object whose `choices[0].delta`
is `some d` when present (and `none` when the object is falsy, has no
usable `choices`, or its first choice has no usable `delta`). -/
inductive Payload where
  | done
  | malformed
  | parsed (delta : Option DeltaObj)
deriving DecidableEq

/-- One line of a chunk: either it does not carry the `data: ` marker
(skipped unread), or it is a `data: ` line with the given payload. -/
inductive Line where
  | other
  | data (p : Payload)
deriving DecidableEq

/-- Decoder-local state of `DeepSeekClient.stream_chat`
(`accumulated_content`, `is_collecting_think`, `has_yielded_content`). -/
structure DSState where
  accumulated_content : String
  is_collecting_think : Bool
  has_yielded_content : Bool
deriving DecidableEq

/-- Initial decoder state (`"" , False, False`). -/
def dsInit : DSState := ⟨"", false, false⟩

/-- The inline-marker branch of `DeepSeekClient.stream_chat`
(deepseek_client.py lines 100-118), for one truthy `delta.content`:
append to `accumulated_content`; an open marker while not collecting starts
reasoning mode; while collecting, a close marker ends it, flags
`has_yielded_content` and emits the extra `(content, "")` transition;
otherwise text is reasoning inside the markers and content outside. -/
def processThink (st : DSState) (content : String) : DSState × List Event :=
  let st := { st with accumulated_content := st.accumulated_content ++ content }
  if strContains content "<think>" && !st.is_collecting_think then
    ({ st with is_collecting_think := true }, [(Kind.reasoning, content)])
  else if st.is_collecting_think then
    if strContains content "</think>" then
      ({ st with is_collecting_think := false,
                 has_yielded_content := true,
                 accumulated_content := "" },
       [(Kind.reasoning, content), (Kind.content, "")])
    else
      (st, [(Kind.reasoning, content)])
  else
    ({ st with has_yielded_content := true }, [(Kind.content, content)])

/-- Per-delta dispatch of `DeepSeekClient.stream_chat`
(deepseek_client.py lines 86-118): for `deepseek-reasoner`, a truthy
`reasoning_content` is a reasoning event, and an absent/null
`reasoning_content` together with a truthy `content` is the
reasoning-to-content transition; for any other model the inline-marker
logic runs on a truthy `content`. -/
def processDelta (model : String) (st : DSState) (d : DeltaObj) : DSState × List Event :=
  if model = "deepseek-reasoner" then
    let evs := if truthy d.reasoning_content then [(Kind.reasoning, d.reasoning_content.getD "")] else []
    if d.reasoning_content = none && truthy d.content then
      ({ st with has_yielded_content := true }, evs ++ [(Kind.content, d.content.getD "")])
    else
      (st, evs)
  else
    if truthy d.content then processThink st (d.content.getD "")
    else (st, [])

/-- One chunk of the DeepSeek decoder (deepseek_client.py lines 71-123):
lines are scanned in order; a non-`data: ` line is skipped; the sentinel
returns from the generator (third component `true`); a payload on which
`json.loads` raises jumps to the chunk-level `except`, so the remaining
lines of the SAME chunk are dropped (but the stream continues). -/
def dsProcessChunk (model : String) (st : DSState) : List Line → DSState × List Event × Bool
  | [] => (st, [], false)
  | Line.other :: rest => dsProcessChunk model st rest
  | Line.data Payload.done :: _ => (st, [], true)
  | Line.data Payload.malformed :: _ => (st, [], false)
  | Line.data (Payload.parsed none) :: rest => dsProcessChunk model st rest
  | Line.data (Payload.parsed (some d)) :: rest =>
    let (st1, evs) := processDelta model st d
    let (st2, evs2, dn) := dsProcessChunk model st1 rest
    (st2, evs ++ evs2, dn)

/-- The chunk loop of `DeepSeekClient.stream_chat`: chunks are processed in
arrival order until the sentinel returns from the generator or the chunk
sequence ends. -/
def dsProcessChunks (model : String) (st : DSState) : List (List Line) → DSState × List Event × Bool
  | [] => (st, [], false)
  | ch :: rest =>
    let (st1, evs, dn) := dsProcessChunk model st ch
    if dn then (st1, evs, true)
    else
      let (st2, evs2, dn2) := dsProcessChunks model st1 rest
      (st2, evs ++ evs2, dn2)

/-- Model of `DeepSeekClient.stream_chat` as a whole: run the chunk loop from the
initial state, then the end-of-stream rule shared by the sentinel branch
(lines 76-80) and the post-loop fallback (lines 125-127): when
`has_yielded_content` is still false, one final `(content, "")` is emitted. -/
def dsStreamChat (model : String) (chunks : List (List Line)) : List Event :=
  let (st, evs, _) := dsProcessChunks model dsInit chunks
  if st.has_yielded_content then evs else evs ++ [(Kind.content, "")]

/-- One chunk of the Claude decoder (claude_client.py lines 50-64): the
`try` is per line there, so a malformed payload only skips its own line;
a truthy content field of the delta yields an answer event; the sentinel
returns from the generator. -/
def claudeChunk : List Line → List Event × Bool
  | [] => ([], false)
  | Line.other :: rest => claudeChunk rest
  | Line.data Payload.done :: _ => ([], true)
  | Line.data Payload.malformed :: rest => claudeChunk rest
  | Line.data (Payload.parsed none) :: rest => claudeChunk rest
  | Line.data (Payload.parsed (some d)) :: rest =>
    let evs := if truthy d.content then [(Kind.answer, d.content.getD "")] else []
    let (evs2, dn) := claudeChunk rest
    (evs ++ evs2, dn)

/-- Model of `ClaudeClient.stream_chat` as a whole (a whitespace-only chunk has no
lines, so the `continue` of line 48 needs no separate case). -/
def claudeStreamChat : List (List Line) → List Event
  | [] => []
  | ch :: rest =>
    let (evs, dn) := claudeChunk ch
    if dn then evs else evs ++ claudeStreamChat rest

/-! ## Coordinator (`app/deepclaude/deepclaude.py`) -/

/-- The `delta` object of an OutputEnvelope as built by the coordinator
(deepclaude.py lines 67-71 and 115-118): `reasoning_content` is `some`
only on envelopes built for reasoning events. -/
structure Delta where
  role : String
  reasoning_content : Option String
  content : String
deriving DecidableEq

/-- One element of the `choices` list of an OutputEnvelope. -/
structure Choice where
  index : Nat
  delta : Delta
deriving DecidableEq

/-- The OutputEnvelope wire record (deepclaude.py lines 60-73 / 108-120). -/
structure Frame where
  id : String
  object : String
  created : Nat
  model : String
  choices : List Choice
deriving DecidableEq

/-- The envelope `process_deepseek` builds for a reasoning event: both
`reasoning_content` and `content` of the delta carry the event text. -/
def dsFrame (chatId : String) (createdTime : Nat) (model text : String) : Frame :=
  ⟨chatId, "chat.completion.chunk", createdTime, model,
    [⟨0, ⟨"assistant", some text, text⟩⟩]⟩

/-- The envelope `process_claude` builds for an answer event: the delta
carries `content` only. -/
def claudeFrame (chatId : String) (createdTime : Nat) (model text : String) : Frame :=
  ⟨chatId, "chat.completion.chunk", createdTime, model,
    [⟨0, ⟨"assistant", none, text⟩⟩]⟩

/-- Observable actions of the two coordinator tasks, in program order:
`out f` is `await output_queue.put(serialized f)` for an envelope,
`push s` is `await claude_queue.put(s)`, `take` is
`await claude_queue.get()`, and `fin` is the `finally`-block
`await output_queue.put(None)` completion signal. -/
inductive Action where
  | out (f : Frame)
  | push (s : String)
  | take
  | fin
deriving DecidableEq

/-- The `async for` body of `process_deepseek` (deepclaude.py lines 54-79):
empty event text is skipped; a reasoning event appends to the
`reasoning_content` accumulator and writes an envelope; the first
non-empty content event pushes the joined accumulator to `claude_queue`
and breaks (second component `true` records the break). An `answer` kind
matches neither branch and is skipped (the DeepSeek decoder never yields
one). -/
def dsLoop (chatId : String) (createdTime : Nat) (model : String)
    (acc : List String) : List Event → List Action × Bool
  | [] => ([], false)
  | (k, c) :: rest =>
    if c = "" then dsLoop chatId createdTime model acc rest
    else if k = Kind.reasoning then
      let (as, b) := dsLoop chatId createdTime model (acc ++ [c]) rest
      (Action.out (dsFrame chatId createdTime model c) :: as, b)
    else if k = Kind.content then
      ([Action.push (String.join acc)], true)
    else
      dsLoop chatId createdTime model acc rest

/-- Model of `process_deepseek` (deepclaude.py lines 52-87) as its action trace,
the provider stream being the event list `evs` followed, when `fails` is
true and the loop consumed the whole list without breaking, by an
exception of the `async for` itself; the `except` branch then pushes `""`
to `claude_queue`, and the `finally` block always signals completion. -/
def process_deepseek (chatId : String) (createdTime : Nat) (model : String)
    (evs : List Event) (fails : Bool) : List Action :=
  let (as, broke) := dsLoop chatId createdTime model [] evs
  (if !broke && fails then as ++ [Action.push ""] else as) ++ [Action.fin]

/-- The `async for` body of `process_claude` (deepclaude.py lines 103-121):
empty event text is skipped; a non-empty `answer` event writes an
envelope; other kinds match no branch (the Claude decoder never yields
them). -/
def claudeLoop (chatId : String) (createdTime : Nat) (model : String) :
    List Event → List Action
  | [] => []
  | (k, c) :: rest =>
    if c = "" then claudeLoop chatId createdTime model rest
    else if k = Kind.answer then
      Action.out (claudeFrame chatId createdTime model c) :: claudeLoop chatId createdTime model rest
    else
      claudeLoop chatId createdTime model rest

/-- Model of `process_claude` (deepclaude.py lines 89-128) as its action trace:
the task first blocks on `claude_queue.get()`, then streams its provider
events, and the `finally` block signals completion (on the exception path
the trace merely stops streaming earlier, which is covered by quantifying
over the event list). -/
def process_claude_trace (chatId : String) (createdTime : Nat) (model : String)
    (evs : List Event) : List Action :=
  Action.take :: claudeLoop chatId createdTime model evs ++ [Action.fin]

/-- The envelopes a trace writes to the output sink, in order. -/
def outFrames (as : List Action) : List Frame :=
  as.filterMap fun a => match a with
    | Action.out f => some f
    | _ => none

/-- The values a trace pushes to the one-shot handoff channel, in order. -/
def handoffPushes (as : List Action) : List String :=
  as.filterMap fun a => match a with
    | Action.push s => some s
    | _ => none

/-! ## Python lists as heap references (for the message-building claims)

`messages` is a mutable Python list; `messages.copy()` allocates a new
list, `.append` mutates the list it is called on, and a list
comprehension allocates a fresh list. A small store of list values makes
these effects explicit. -/

/-- One chat message; `role` models `message.get("role", "")`. -/
structure Message where
  role : String
  content : String
deriving DecidableEq

/-- The synthetic assistant message `process_claude` appends when the
delivered reasoning is non-empty (deepclaude.py lines 97-100). -/
def syntheticMsg (reasoning : String) : Message :=
  ⟨"assistant",
   "Here\x27s my reasoning process:\n" ++ reasoning ++
     "\n\nBased on this reasoning, I will now provide my response:"⟩

/-- A store of Python list values: references are allocation indices. -/
structure Heap where
  store : Nat → Option (List Message)
  next : Nat

/-- Allocate a fresh list and return its reference. -/
def Heap.alloc (h : Heap) (v : List Message) : Heap × Nat :=
  (⟨fun n => if n = h.next then some v else h.store n, h.next + 1⟩, h.next)

/-- Overwrite the list behind an existing reference (models `.append`). -/
def Heap.set (h : Heap) (r : Nat) (v : List Message) : Heap :=
  ⟨fun n => if n = r then some v else h.store n, h.next⟩

/-- Read a reference. -/
def Heap.get (h : Heap) (r : Nat) : List Message :=
  (h.store r).getD []

/-- The message-building prelude of `process_claude` (deepclaude.py lines
92-101), with Python list effects explicit: when the delivered reasoning
is empty (falsy), a comprehension allocates the filtered original list;
otherwise `messages.copy()` allocates a copy, `.append` mutates that
copy in place with the synthetic message, and a comprehension allocates
the filtered result. Returns the store and the reference bound to
`claude_messages`. -/
def claudePrelude (h : Heap) (messagesRef : Nat) (reasoning : String) : Heap × Nat :=
  if reasoning = "" then
    h.alloc ((h.get messagesRef).filter fun m => m.role ≠ "system")
  else
    let (h1, cm) := h.alloc (h.get messagesRef)
    let h2 := h1.set cm (h1.get cm ++ [syntheticMsg reasoning])
    h2.alloc ((h2.get cm).filter fun m => m.role ≠ "system")

/-! ## Drain loop and timeout path -/

/-- A frame of the byte stream `chat_completions_with_stream` yields:
a serialized OutputEnvelope `data: {json}`, the timeout error frame
`data: {"error": "Operation timeout"}`, or the sentinel `data: [DONE]`. -/
inductive WireFrame where
  | data (f : Frame)
  | errorTimeout
  | doneMark
deriving DecidableEq

/-- The drain loop (deepclaude.py lines 134-141): items are the values the
coordinator manages to read from `output_queue` before the deadline, in
queue order; `none` is a task-completion signal. The loop ends normally
(second component `true`) once two completion signals are counted; if the
item list is exhausted first, the coordinator was still awaiting the
queue when the deadline fired. -/
def drainLoop : Nat → List (Option Frame) → List Frame × Bool
  | f, items =>
    if f ≥ 2 then ([], true)
    else match items with
      | [] => ([], false)
      | none :: rest => drainLoop (f + 1) rest
      | some fr :: rest =>
        let (fs, b) := drainLoop f rest
        (fr :: fs, b)

/-- What a coordinator run emits and whether it cancelled the tasks. -/
structure CoordOut where
  frames : List WireFrame
  cancelled : Bool
deriving DecidableEq

/-- Model of `chat_completions_with_stream` (deepclaude.py lines 130-159) as a
function of the queue items read before the deadline: the normal path
yields the drained envelopes then the sentinel; the `asyncio.TimeoutError`
path cancels both tasks (lines 147-148, and the `finally` block re-cancels
any task still pending) and yields the error frame then the sentinel. -/
def chat_completions_with_stream (items : List (Option Frame)) : CoordOut :=
  let (fs, ok) := drainLoop 0 items
  if ok then ⟨fs.map WireFrame.data ++ [WireFrame.doneMark], false⟩
  else ⟨fs.map WireFrame.data ++ [WireFrame.errorTimeout, WireFrame.doneMark], true⟩

/-! ## Interleavings of the two task traces -/

/-- Relation `Interleave xs ys zs`: `zs` is a shuffle of `xs` and `ys` preserving
the order of each (the scheduler may pick either ready task at each
step). -/
inductive Interleave : List Action → List Action → List Action → Prop where
  | nil : Interleave [] [] []
  | left {x xs ys zs} : Interleave xs ys zs → Interleave (x :: xs) ys (x :: zs)
  | right {y xs ys zs} : Interleave xs ys zs → Interleave xs (y :: ys) (y :: zs)

/-- A schedule is valid when no `claude_queue.get()` is served before a
value has been put: along the trace, with `c` values currently in the
channel, a `take` needs `c > 0`. -/
def validFrom : Nat → List Action → Bool
  | _, [] => true
  | c, Action.push _ :: rest => validFrom (c + 1) rest
  | c, Action.take :: rest => decide (0 < c) && validFrom (c - 1) rest
  | c, Action.out _ :: rest => validFrom c rest
  | c, Action.fin :: rest => validFrom c rest

/-! ## Helper lemmas -/

theorem Heap.get_alloc (h : Heap) (v : List Message) :
    (h.alloc v).1.get (h.alloc v).2 = v := by
  simp [Heap.alloc, Heap.get]

theorem Heap.get_set (h : Heap) (r : Nat) (v : List Message) :
    (h.set r v).get r = v := by
  simp [Heap.set, Heap.get]

/-! ## Claim theorems -/

/-- C1. The claim says `process_deepseek` pushes exactly one value to the
handoff channel on every exit path, including the normal completion in
which the only content-kind event carries empty text. The code violates
this: the guard `if not content: continue` (deepclaude.py line 55) skips
the decoder end-of-stream signal `(content, "")` before the handoff
branch is reached, so on that path nothing is ever pushed to
`claude_queue` and `process_claude` stays blocked on its read until the
overall deadline. This theorem evaluates the embedded code at the failing
input: the DeepSeek decoder applied to an empty provider stream emits
exactly the `(content, "")` signal, and `process_deepseek` consuming that
event list on its normal (non-failing) path performs no handoff push. -/
theorem handoff_skips_empty_content_signal :
    dsStreamChat "deepseek-reasoner" [] = [(Kind.content, "")] ∧
    handoffPushes (process_deepseek "chatcmpl-0" 0 "deepseek-reasoner"
      (dsStreamChat "deepseek-reasoner" []) false) = [] := by
  constructor <;> rfl

/-- C2. If the deadline elapses before both tasks signal completion (the
drain loop is still short of two completion signals when the readable
items run out), the coordinator cancels both tasks and emits the already
drained data frames, then exactly one error frame, then the termination
sentinel as the very last frame; after the error frame nothing but the
sentinel is emitted. -/
theorem timeout_emits_error_then_sentinel (items : List (Option Frame))
    (h : (drainLoop 0 items).2 = false) :
    (chat_completions_with_stream items).cancelled = true ∧
    (chat_completions_with_stream items).frames =
      (drainLoop 0 items).1.map WireFrame.data ++
        [WireFrame.errorTimeout, WireFrame.doneMark] ∧
    (chat_completions_with_stream items).frames.count WireFrame.errorTimeout = 1 ∧
    (chat_completions_with_stream items).frames.getLast? = some WireFrame.doneMark := by
  have hfs : chat_completions_with_stream items =
      ⟨(drainLoop 0 items).1.map WireFrame.data ++
        [WireFrame.errorTimeout, WireFrame.doneMark], true⟩ := by
    unfold chat_completions_with_stream
    rw [show drainLoop 0 items = ((drainLoop 0 items).1, false) from by rw [← h]]
    rfl
  rw [hfs]
  refine ⟨rfl, rfl, ?_, ?_⟩
  · simp only [List.count_append]
    rw [show ((drainLoop 0 items).1.map WireFrame.data).count WireFrame.errorTimeout = 0 from ?_]
    · rfl
    · rw [List.count_eq_zero]
      intro hmem
      obtain ⟨f, _, hf⟩ := List.mem_map.mp hmem
      exact WireFrame.noConfusion hf
  · rw [List.getLast?_append]
    rfl

/-- Witness for C2: a run in which only one completion signal arrives
before the deadline. -/
theorem timeout_emits_error_then_sentinel_witness :
    (drainLoop 0 [some (dsFrame "i" 0 "m" "t"), none]).2 = false ∧
    (chat_completions_with_stream [some (dsFrame "i" 0 "m" "t"), none]).cancelled = true ∧
    (chat_completions_with_stream [some (dsFrame "i" 0 "m" "t"), none]).frames =
      (drainLoop 0 [some (dsFrame "i" 0 "m" "t"), none]).1.map WireFrame.data ++
        [WireFrame.errorTimeout, WireFrame.doneMark] ∧
    (chat_completions_with_stream [some (dsFrame "i" 0 "m" "t"), none]).frames.count
      WireFrame.errorTimeout = 1 ∧
    (chat_completions_with_stream [some (dsFrame "i" 0 "m" "t"), none]).frames.getLast? =
      some WireFrame.doneMark :=
  ⟨rfl, timeout_emits_error_then_sentinel [some (dsFrame "i" 0 "m" "t"), none] rfl⟩

/-- C9. The coordinator never mutates the messages list of the caller: the
message-building prelude of `process_claude` only allocates fresh lists
(`messages.copy()`, the comprehensions) and mutates the fresh copy, so
the store entry behind the reference held by the caller is untouched. -/
theorem caller_messages_unchanged (h : Heap) (r : Nat) (s : String)
    (hr : r < h.next) :
    ((claudePrelude h r s).1).store r = h.store r := by
  unfold claudePrelude
  split
  · simp only [Heap.alloc]
    simp [Nat.ne_of_lt hr]
  · simp only [Heap.alloc, Heap.set, Heap.get]
    simp [Nat.ne_of_lt hr, Nat.ne_of_lt (Nat.lt_succ_of_lt hr)]

/-- Witness for C9 at a concrete one-entry store. -/
theorem caller_messages_unchanged_witness :
    0 < (Heap.mk (fun n => if n = 0 then some [⟨"user", "hi"⟩] else none) 1).next ∧
    ((claudePrelude (Heap.mk (fun n => if n = 0 then some [⟨"user", "hi"⟩] else none) 1)
        0 "why").1).store 0 =
      (Heap.mk (fun n => if n = 0 then some [⟨"user", "hi"⟩] else none) 1).store 0 :=
  ⟨by decide,
   caller_messages_unchanged
     (Heap.mk (fun n => if n = 0 then some [⟨"user", "hi"⟩] else none) 1) 0 "why"
     (by decide)⟩

/-- C6. The conversation `process_claude` forwards: with empty delivered
reasoning it is the original messages with the system-role messages
removed and no synthetic message; with non-empty reasoning it is the
original messages with the synthetic assistant reasoning message
appended and then the system-role messages removed. -/
theorem forwarded_conversation_shape (h : Heap) (r : Nat) (s : String) :
    ((claudePrelude h r s).1).get (claudePrelude h r s).2 =
      if s = "" then (h.get r).filter (fun m => m.role ≠ "system")
      else ((h.get r) ++ [syntheticMsg s]).filter (fun m => m.role ≠ "system") := by
  unfold claudePrelude
  split
  · exact Heap.get_alloc ..
  · simp [Heap.alloc, Heap.get, Heap.set]

/-! ## Lemmas about the task loops -/

theorem mem_outFrames {f : Frame} {as : List Action} :
    f ∈ outFrames as ↔ Action.out f ∈ as := by
  simp only [outFrames, List.mem_filterMap]
  constructor
  · rintro ⟨a, ha, hg⟩
    cases a <;> simp_all
  · intro hf
    exact ⟨Action.out f, hf, rfl⟩

theorem dsLoop_filter (cid : String) (ct : Nat) (m : String) (evs : List Event) :
    ∀ acc, dsLoop cid ct m acc (evs.filter fun e => e.2 ≠ "") =
      dsLoop cid ct m acc evs := by
  induction evs with
  | nil => intro acc; rfl
  | cons e rest ih =>
    intro acc
    obtain ⟨k, c⟩ := e
    simp only [ne_eq, decide_not] at ih
    by_cases hc : c = ""
    · subst hc
      simp [List.filter_cons, dsLoop, ih]
    · rw [List.filter_cons]
      simp only [ne_eq, decide_not, hc, decide_False, Bool.not_false, if_true]
      cases k <;> simp [dsLoop, hc, ih]

theorem claudeLoop_filter (cid : String) (ct : Nat) (m : String) (evs : List Event) :
    claudeLoop cid ct m (evs.filter fun e => e.2 ≠ "") = claudeLoop cid ct m evs := by
  induction evs with
  | nil => rfl
  | cons e rest ih =>
    obtain ⟨k, c⟩ := e
    simp only [ne_eq, decide_not] at ih
    by_cases hc : c = ""
    · subst hc
      simp [List.filter_cons, claudeLoop, ih]
    · rw [List.filter_cons]
      simp only [ne_eq, decide_not, hc, decide_False, Bool.not_false, if_true]
      cases k <;> simp [claudeLoop, hc, ih]

theorem dsLoop_out_mem (cid : String) (ct : Nat) (m : String) (evs : List Event) :
    ∀ acc f, Action.out f ∈ (dsLoop cid ct m acc evs).1 →
      ∃ t, t ≠ "" ∧ (Kind.reasoning, t) ∈ evs ∧ f = dsFrame cid ct m t := by
  induction evs with
  | nil => intro acc f hf; simp [dsLoop] at hf
  | cons e rest ih =>
    intro acc f hf
    obtain ⟨k, c⟩ := e
    by_cases hc : c = ""
    · subst hc
      rw [show dsLoop cid ct m acc ((k, "") :: rest) = dsLoop cid ct m acc rest from rfl] at hf
      obtain ⟨t, ht, hmem, hfr⟩ := ih acc f hf
      exact ⟨t, ht, List.mem_cons_of_mem _ hmem, hfr⟩
    · cases k with
      | reasoning =>
        rw [show dsLoop cid ct m acc ((Kind.reasoning, c) :: rest) =
          (Action.out (dsFrame cid ct m c) :: (dsLoop cid ct m (acc ++ [c]) rest).1,
            (dsLoop cid ct m (acc ++ [c]) rest).2) from by simp [dsLoop, hc]] at hf
        rcases List.mem_cons.mp hf with h1 | h2
        · exact ⟨c, hc, List.mem_cons_self _ _, (Action.out.injEq ..).mp h1.symm |>.symm⟩
        · obtain ⟨t, ht, hmem, hfr⟩ := ih (acc ++ [c]) f h2
          exact ⟨t, ht, List.mem_cons_of_mem _ hmem, hfr⟩
      | content =>
        rw [show dsLoop cid ct m acc ((Kind.content, c) :: rest) =
          ([Action.push (String.join acc)], true) from by simp [dsLoop, hc]] at hf
        simp at hf
      | answer =>
        rw [show dsLoop cid ct m acc ((Kind.answer, c) :: rest) =
          dsLoop cid ct m acc rest from by simp [dsLoop, hc]] at hf
        obtain ⟨t, ht, hmem, hfr⟩ := ih acc f hf
        exact ⟨t, ht, List.mem_cons_of_mem _ hmem, hfr⟩

theorem claudeLoop_out_mem (cid : String) (ct : Nat) (m : String) (evs : List Event) :
    ∀ f, Action.out f ∈ claudeLoop cid ct m evs →
      ∃ t, t ≠ "" ∧ (Kind.answer, t) ∈ evs ∧ f = claudeFrame cid ct m t := by
  induction evs with
  | nil => intro f hf; simp [claudeLoop] at hf
  | cons e rest ih =>
    intro f hf
    obtain ⟨k, c⟩ := e
    by_cases hc : c = ""
    · subst hc
      rw [show claudeLoop cid ct m ((k, "") :: rest) = claudeLoop cid ct m rest from rfl] at hf
      obtain ⟨t, ht, hmem, hfr⟩ := ih f hf
      exact ⟨t, ht, List.mem_cons_of_mem _ hmem, hfr⟩
    · cases k with
      | answer =>
        rw [show claudeLoop cid ct m ((Kind.answer, c) :: rest) =
          Action.out (claudeFrame cid ct m c) :: claudeLoop cid ct m rest from by
            simp [claudeLoop, hc]] at hf
        rcases List.mem_cons.mp hf with h1 | h2
        · exact ⟨c, hc, List.mem_cons_self _ _, (Action.out.injEq ..).mp h1.symm |>.symm⟩
        · obtain ⟨t, ht, hmem, hfr⟩ := ih f h2
          exact ⟨t, ht, List.mem_cons_of_mem _ hmem, hfr⟩
      | reasoning =>
        rw [show claudeLoop cid ct m ((Kind.reasoning, c) :: rest) =
          claudeLoop cid ct m rest from by simp [claudeLoop, hc]] at hf
        obtain ⟨t, ht, hmem, hfr⟩ := ih f hf
        exact ⟨t, ht, List.mem_cons_of_mem _ hmem, hfr⟩
      | content =>
        rw [show claudeLoop cid ct m ((Kind.content, c) :: rest) =
          claudeLoop cid ct m rest from by simp [claudeLoop, hc]] at hf
        obtain ⟨t, ht, hmem, hfr⟩ := ih f hf
        exact ⟨t, ht, List.mem_cons_of_mem _ hmem, hfr⟩

theorem outFrames_process_deepseek (cid : String) (ct : Nat) (m : String)
    (evs : List Event) (fails : Bool) :
    outFrames (process_deepseek cid ct m evs fails) =
      outFrames (dsLoop cid ct m [] evs).1 := by
  unfold process_deepseek outFrames
  cases h : dsLoop cid ct m [] evs with
  | mk as b =>
    simp only [h]
    split <;> simp [List.filterMap_append]

theorem outFrames_process_claude (cid : String) (ct : Nat) (m : String)
    (evs : List Event) :
    outFrames (process_claude_trace cid ct m evs) =
      outFrames (claudeLoop cid ct m evs) := by
  unfold process_claude_trace outFrames
  simp [List.filterMap_append]

/-- C10. Both coordinator tasks skip a provider event with empty text
before any other processing: the whole observable action trace (envelope
writes, accumulator-derived handoff pushes, completion signal) is
unchanged when the empty-text events are removed from either provider
stream, and no emitted envelope carries an empty delta content string. -/
theorem empty_events_skipped (cid : String) (ct : Nat) (dm cm : String)
    (evs evs' : List Event) (fails : Bool) :
    process_deepseek cid ct dm evs fails =
      process_deepseek cid ct dm (evs.filter fun e => e.2 ≠ "") fails ∧
    process_claude_trace cid ct cm evs' =
      process_claude_trace cid ct cm (evs'.filter fun e => e.2 ≠ "") ∧
    (∀ f ∈ outFrames (process_deepseek cid ct dm evs fails),
      ∀ ch ∈ f.choices, ch.delta.content ≠ "") ∧
    (∀ f ∈ outFrames (process_claude_trace cid ct cm evs'),
      ∀ ch ∈ f.choices, ch.delta.content ≠ "") := by
  refine ⟨?_, ?_, ?_, ?_⟩
  · unfold process_deepseek
    rw [dsLoop_filter]
  · unfold process_claude_trace
    rw [claudeLoop_filter]
  · intro f hf ch hch
    rw [outFrames_process_deepseek, mem_outFrames] at hf
    obtain ⟨t, ht, _, hfr⟩ := dsLoop_out_mem cid ct dm evs [] f hf
    subst hfr
    simp only [dsFrame, List.mem_singleton] at hch
    subst hch
    exact ht
  · intro f hf ch hch
    rw [outFrames_process_claude, mem_outFrames] at hf
    obtain ⟨t, ht, _, hfr⟩ := claudeLoop_out_mem cid ct cm evs' f hf
    subst hfr
    simp only [claudeFrame, List.mem_singleton] at hch
    subst hch
    exact ht

/-- Witness for C10 at a concrete pair of streams with an empty event and
a concrete emitted envelope. -/
theorem empty_events_skipped_witness :
    dsFrame "i" 0 "m" "a" ∈
      outFrames (process_deepseek "i" 0 "m"
        [(Kind.reasoning, "a"), (Kind.content, "")] false) ∧
    Choice.mk 0 ⟨"assistant", some "a", "a"⟩ ∈ (dsFrame "i" 0 "m" "a").choices ∧
    process_deepseek "i" 0 "m" [(Kind.reasoning, "a"), (Kind.content, "")] false =
      process_deepseek "i" 0 "m"
        ([(Kind.reasoning, "a"), (Kind.content, "")].filter fun e => e.2 ≠ "") false ∧
    (Choice.mk 0 ⟨"assistant", some "a", "a"⟩).delta.content ≠ "" := by
  refine ⟨by decide, by decide, ?_, ?_⟩
  · exact (empty_events_skipped "i" 0 "m" "c"
      [(Kind.reasoning, "a"), (Kind.content, "")] [] false).1
  · exact (empty_events_skipped "i" 0 "m" "c"
      [(Kind.reasoning, "a"), (Kind.content, "")] [] false).2.2.1
      (dsFrame "i" 0 "m" "a") (by decide) (Choice.mk 0 ⟨"assistant", some "a", "a"⟩) (by decide)

/-- C5. Every envelope the Reasoning-Provider task emits has a single
choice whose delta carries the reasoning event text in both `content`
and `reasoning_content`; every envelope the Answer-Provider task emits
has a single choice whose delta carries the answer event text in
`content` and no `reasoning_content`. -/
theorem envelope_delta_fields (cid : String) (ct : Nat) (dm cm : String)
    (evs evs' : List Event) (fails : Bool) :
    (∀ f ∈ outFrames (process_deepseek cid ct dm evs fails),
      ∃ t, (Kind.reasoning, t) ∈ evs ∧
        f.choices = [⟨0, ⟨"assistant", some t, t⟩⟩]) ∧
    (∀ f ∈ outFrames (process_claude_trace cid ct cm evs'),
      ∃ t, (Kind.answer, t) ∈ evs' ∧
        f.choices = [⟨0, ⟨"assistant", none, t⟩⟩]) := by
  constructor
  · intro f hf
    rw [outFrames_process_deepseek, mem_outFrames] at hf
    obtain ⟨t, _, hmem, hfr⟩ := dsLoop_out_mem cid ct dm evs [] f hf
    exact ⟨t, hmem, by rw [hfr]; rfl⟩
  · intro f hf
    rw [outFrames_process_claude, mem_outFrames] at hf
    obtain ⟨t, _, hmem, hfr⟩ := claudeLoop_out_mem cid ct cm evs' f hf
    exact ⟨t, hmem, by rw [hfr]; rfl⟩

/-- Witness for C5 at a concrete reasoning stream and answer stream. -/
theorem envelope_delta_fields_witness :
    dsFrame "i" 0 "m" "a" ∈
      outFrames (process_deepseek "i" 0 "m" [(Kind.reasoning, "a")] false) ∧
    (∃ t, (Kind.reasoning, t) ∈ [((Kind.reasoning : Kind), "a")] ∧
      (dsFrame "i" 0 "m" "a").choices = [⟨0, ⟨"assistant", some t, t⟩⟩]) ∧
    claudeFrame "i" 0 "c" "b" ∈
      outFrames (process_claude_trace "i" 0 "c" [(Kind.answer, "b")]) ∧
    (∃ t, (Kind.answer, t) ∈ [((Kind.answer : Kind), "b")] ∧
      (claudeFrame "i" 0 "c" "b").choices = [⟨0, ⟨"assistant", none, t⟩⟩]) := by
  refine ⟨by decide, ?_, by decide, ?_⟩
  · exact (envelope_delta_fields "i" 0 "m" "c" [(Kind.reasoning, "a")] [(Kind.answer, "b")]
      false).1 (dsFrame "i" 0 "m" "a") (by decide)
  · exact (envelope_delta_fields "i" 0 "m" "c" [(Kind.reasoning, "a")] [(Kind.answer, "b")]
      false).2 (claudeFrame "i" 0 "c" "b") (by decide)

/-! ## The `has_yielded_content` flag tracks content-kind events -/

/-- Does an event list contain a content-kind event? -/
def hasContentEv (evs : List Event) : Bool :=
  evs.any fun e => decide (e.1 = Kind.content)

theorem processThink_flag (st : DSState) (c : String) :
    ((processThink st c).1).has_yielded_content =
      (st.has_yielded_content || hasContentEv (processThink st c).2) := by
  obtain ⟨acc, coll, flag⟩ := st
  simp only [processThink, hasContentEv]
  split_ifs <;> simp

theorem processDelta_flag (m : String) (st : DSState) (d : DeltaObj) :
    ((processDelta m st d).1).has_yielded_content =
      (st.has_yielded_content || hasContentEv (processDelta m st d).2) := by
  unfold processDelta
  split
  · split
    · split <;> simp [hasContentEv]
    · split <;> simp [hasContentEv]
  · split
    · exact processThink_flag st _
    · simp [hasContentEv]

theorem dsProcessChunk_flag (m : String) (st : DSState) (ls : List Line) :
    ((dsProcessChunk m st ls).1).has_yielded_content =
      (st.has_yielded_content || hasContentEv (dsProcessChunk m st ls).2.1) := by
  induction ls generalizing st with
  | nil => simp [dsProcessChunk, hasContentEv]
  | cons l rest ih =>
    match l with
    | Line.other => simpa [dsProcessChunk] using ih st
    | Line.data Payload.done => simp [dsProcessChunk, hasContentEv]
    | Line.data Payload.malformed => simp [dsProcessChunk, hasContentEv]
    | Line.data (Payload.parsed none) => simpa [dsProcessChunk] using ih st
    | Line.data (Payload.parsed (some d)) =>
      have h1 := processDelta_flag m st d
      have h2 := ih (processDelta m st d).1
      simp only [dsProcessChunk]
      cases hpd : processDelta m st d with
      | mk st1 evs =>
        rw [hpd] at h1 h2
        cases hch : dsProcessChunk m st1 rest with
        | mk st2 p =>
          rw [hch] at h2
          simp only [hasContentEv, List.any_append] at *
          simp [h2, h1, Bool.or_assoc]

theorem dsProcessChunks_flag (m : String) (st : DSState) (chunks : List (List Line)) :
    ((dsProcessChunks m st chunks).1).has_yielded_content =
      (st.has_yielded_content || hasContentEv (dsProcessChunks m st chunks).2.1) := by
  induction chunks generalizing st with
  | nil => simp [dsProcessChunks, hasContentEv]
  | cons ch rest ih =>
    have h1 := dsProcessChunk_flag m st ch
    simp only [dsProcessChunks]
    cases hch : dsProcessChunk m st ch with
    | mk st1 p =>
      cases p with
      | mk evs dn =>
        rw [hch] at h1
        cases dn with
        | true => simpa using h1
        | false =>
          have h2 := ih st1
          cases hcs : dsProcessChunks m st1 rest with
          | mk st2 q =>
            rw [hcs] at h2
            simp only [hasContentEv, List.any_append] at *
            simp [h2, h1, Bool.or_assoc]

/-- C8. If the DeepSeek decoder emitted no content-kind event during the
whole stream (over any chunk sequence, with or without a sentinel), then
at stream end exactly one final `(content, "")` event is emitted before
the event sequence terminates: the full output is the loop output plus
that one final signal, and it is the only content-kind event. -/
theorem end_signal_when_no_content (m : String) (chunks : List (List Line))
    (h : hasContentEv (dsProcessChunks m dsInit chunks).2.1 = false) :
    dsStreamChat m chunks = (dsProcessChunks m dsInit chunks).2.1 ++ [(Kind.content, "")] ∧
    (dsStreamChat m chunks).filter (fun e => decide (e.1 = Kind.content)) =
      [(Kind.content, "")] := by
  have hflag := dsProcessChunks_flag m dsInit chunks
  rw [h] at hflag
  simp only [Bool.or_false] at hflag
  rw [show dsInit.has_yielded_content = false from rfl] at hflag
  have hout : dsStreamChat m chunks =
      (dsProcessChunks m dsInit chunks).2.1 ++ [(Kind.content, "")] := by
    unfold dsStreamChat
    cases hcs : dsProcessChunks m dsInit chunks with
    | mk st p =>
      cases p with
      | mk evs dn =>
        rw [hcs] at hflag
        have hst : st.has_yielded_content = false := hflag
        simp [hst]
  refine ⟨hout, ?_⟩
  rw [hout, List.filter_append]
  rw [show List.filter (fun e => decide (e.1 = Kind.content))
        (dsProcessChunks m dsInit chunks).2.1 = [] from ?_]
  · rfl
  · rw [List.filter_eq_nil_iff]
    intro e he
    simp only [hasContentEv] at h
    have he2 := List.any_eq_false.mp h e he
    simp_all

/-- Witness for C8: the empty chunk sequence emits no content event in the
loop, and the final signal is appended. -/
theorem end_signal_when_no_content_witness :
    hasContentEv (dsProcessChunks "deepseek-reasoner" dsInit []).2.1 = false ∧
    dsStreamChat "deepseek-reasoner" [] =
      (dsProcessChunks "deepseek-reasoner" dsInit []).2.1 ++ [(Kind.content, "")] ∧
    (dsStreamChat "deepseek-reasoner" []).filter (fun e => decide (e.1 = Kind.content)) =
      [(Kind.content, "")] :=
  ⟨rfl, end_signal_when_no_content "deepseek-reasoner" [] rfl⟩

/-! ## Malformed lines: per-line recovery (Claude) vs chunk abort (DeepSeek) -/

theorem claudeChunk_filter (ls : List Line) :
    claudeChunk (ls.filter fun l => !decide (l = Line.data Payload.malformed)) =
      claudeChunk ls := by
  induction ls with
  | nil => rfl
  | cons l rest ih =>
    rw [List.filter_cons]
    by_cases hl : l = Line.data Payload.malformed
    · subst hl
      simpa [claudeChunk] using ih
    · rw [show (!decide (l = Line.data Payload.malformed)) = true from by simp [hl]]
      simp only [if_true]
      cases l with
      | other => simpa [claudeChunk] using ih
      | data p =>
        cases p with
        | done => rfl
        | malformed => exact absurd rfl hl
        | parsed d =>
          cases d with
          | none => simpa [claudeChunk] using ih
          | some dd => simp [claudeChunk, ih]

theorem claudeStream_filter (chunks : List (List Line)) :
    claudeStreamChat (chunks.map (List.filter fun l => !decide (l = Line.data Payload.malformed))) =
      claudeStreamChat chunks := by
  induction chunks with
  | nil => rfl
  | cons ch rest ih =>
    simp only [List.map_cons, claudeStreamChat, claudeChunk_filter, ih]

theorem dsProcessChunk_malformed (m : String) (post : List Line) :
    ∀ (pre : List Line) (st : DSState),
      dsProcessChunk m st (pre ++ Line.data Payload.malformed :: post) =
        dsProcessChunk m st pre := by
  intro pre
  induction pre with
  | nil => intro st; rfl
  | cons l rest ih =>
    intro st
    cases l with
    | other => simpa [dsProcessChunk] using ih st
    | data p =>
      cases p with
      | done => rfl
      | malformed => rfl
      | parsed d =>
        cases d with
        | none => simpa [dsProcessChunk] using ih st
        | some dd => simp [dsProcessChunk, ih]

theorem dsProcessChunks_malformed (m : String) (pre post : List Line)
    (c2 : List (List Line)) :
    ∀ (c1 : List (List Line)) (st : DSState),
      dsProcessChunks m st (c1 ++ (pre ++ Line.data Payload.malformed :: post) :: c2) =
        dsProcessChunks m st (c1 ++ pre :: c2) := by
  intro c1
  induction c1 with
  | nil =>
    intro st
    simp only [List.nil_append, dsProcessChunks, dsProcessChunk_malformed]
  | cons ch rest ih =>
    intro st
    simp only [List.cons_append, dsProcessChunks, List.append_eq, ih]

/-- C4 counterexample. The claim says a malformed JSON line never
suppresses events decoded from subsequent well-formed lines of the same
chunk, for both decoders. In `DeepSeekClient.stream_chat` the `try` wraps
the whole line loop of a chunk, so a malformed line aborts the remaining
lines of its chunk: with the malformed line in front, the well-formed
line carrying "hi" yields nothing (only the end-of-stream signal
appears); without it, the same line yields `(content, "hi")`. -/
theorem malformed_line_suppresses_same_chunk :
    dsStreamChat "m" [[Line.data Payload.malformed,
      Line.data (Payload.parsed (some ⟨none, some "hi"⟩))]] = [(Kind.content, "")] ∧
    dsStreamChat "m" [[Line.data (Payload.parsed (some ⟨none, some "hi"⟩))]] =
      [(Kind.content, "hi")] := by
  constructor <;> rfl

/-- C4 amended. In `ClaudeClient.stream_chat` (per-line `try`) a malformed
line is skipped with no event and never suppresses any other line's
events: deleting all malformed lines leaves the decoded event sequence
unchanged. In `DeepSeekClient.stream_chat` (per-chunk `try`) a malformed
line emits no event and aborts the remaining lines of the same chunk
only: the stream behaves as if that chunk ended just before the
malformed line, and later chunks are decoded unaffected. -/
theorem malformed_line_effects :
    (∀ chunks : List (List Line),
      claudeStreamChat (chunks.map (List.filter fun l => !decide (l = Line.data Payload.malformed))) =
        claudeStreamChat chunks) ∧
    (∀ (m : String) (c1 : List (List Line)) (pre post : List Line) (c2 : List (List Line)),
      dsStreamChat m (c1 ++ (pre ++ Line.data Payload.malformed :: post) :: c2) =
        dsStreamChat m (c1 ++ pre :: c2)) := by
  refine ⟨claudeStream_filter, ?_⟩
  intro m c1 pre post c2
  unfold dsStreamChat
  rw [dsProcessChunks_malformed]

/-! ## The inline-marker region across chunk boundaries (C3) -/

/-- A chunk carrying exactly one `data: ` line whose delta has no
reasoning field and the given content text. -/
def deltaChunk (t : String) : List Line :=
  [Line.data (Payload.parsed (some ⟨none, some t⟩))]

theorem dsPC_deltaChunk_cons (m : String) (st : DSState) (t : String)
    (rest : List (List Line)) :
    dsProcessChunks m st (deltaChunk t :: rest) =
      ((dsProcessChunks m (processDelta m st ⟨none, some t⟩).1 rest).1,
       (processDelta m st ⟨none, some t⟩).2 ++
         (dsProcessChunks m (processDelta m st ⟨none, some t⟩).1 rest).2.1,
       (dsProcessChunks m (processDelta m st ⟨none, some t⟩).1 rest).2.2) := by
  simp [dsProcessChunks, dsProcessChunk, deltaChunk]

theorem region_outside (m : String) (hm : m ≠ "deepseek-reasoner")
    (K : List (List Line)) :
    ∀ ts : List String, (∀ x ∈ ts, strContains x "<think>" = false) →
    ∀ st : DSState, st.is_collecting_think = false →
    ∃ st' : DSState, st'.is_collecting_think = false ∧
      (st.has_yielded_content = true → st'.has_yielded_content = true) ∧
      dsProcessChunks m st (ts.map deltaChunk ++ K) =
        ((dsProcessChunks m st' K).1,
         (ts.filter (fun t => t != "")).map (fun t => ((Kind.content : Kind), t)) ++
           (dsProcessChunks m st' K).2.1,
         (dsProcessChunks m st' K).2.2) := by
  intro ts
  induction ts with
  | nil =>
    intro _ st hst
    exact ⟨st, hst, fun h => h, by simp⟩
  | cons t ts ih =>
    intro hts st hst
    have ht : strContains t "<think>" = false := hts t (List.mem_cons_self ..)
    by_cases htE : t = ""
    · subst htE
      obtain ⟨st', h1, h2, h3⟩ := ih (fun x hx => hts x (List.mem_cons_of_mem _ hx)) st hst
      refine ⟨st', h1, h2, ?_⟩
      rw [List.map_cons, List.cons_append, dsPC_deltaChunk_cons,
        show processDelta m st ⟨none, some ""⟩ = (st, []) from by
          simp [processDelta, truthy, hm], h3]
      simp [List.filter_cons]
    · have hpd : processDelta m st ⟨none, some t⟩ =
          ({ st with accumulated_content := st.accumulated_content ++ t,
                     has_yielded_content := true }, [(Kind.content, t)]) := by
        simp [processDelta, truthy, hm, htE, processThink, ht, hst]
      obtain ⟨st', h1, h2, h3⟩ := ih (fun x hx => hts x (List.mem_cons_of_mem _ hx))
        { st with accumulated_content := st.accumulated_content ++ t,
                  has_yielded_content := true } hst
      refine ⟨st', h1, fun _ => h2 rfl, ?_⟩
      rw [List.map_cons, List.cons_append, dsPC_deltaChunk_cons, hpd, h3]
      simp [List.filter_cons, htE]

theorem region_inside (m : String) (hm : m ≠ "deepseek-reasoner")
    (K : List (List Line)) :
    ∀ ts : List String, (∀ x ∈ ts, strContains x "</think>" = false) →
    ∀ st : DSState, st.is_collecting_think = true →
    ∃ st' : DSState, st'.is_collecting_think = true ∧
      st'.has_yielded_content = st.has_yielded_content ∧
      dsProcessChunks m st (ts.map deltaChunk ++ K) =
        ((dsProcessChunks m st' K).1,
         (ts.filter (fun t => t != "")).map (fun t => ((Kind.reasoning : Kind), t)) ++
           (dsProcessChunks m st' K).2.1,
         (dsProcessChunks m st' K).2.2) := by
  intro ts
  induction ts with
  | nil =>
    intro _ st hst
    exact ⟨st, hst, rfl, by simp⟩
  | cons t ts ih =>
    intro hts st hst
    have ht : strContains t "</think>" = false := hts t (List.mem_cons_self ..)
    by_cases htE : t = ""
    · subst htE
      obtain ⟨st', h1, h2, h3⟩ := ih (fun x hx => hts x (List.mem_cons_of_mem _ hx)) st hst
      refine ⟨st', h1, h2, ?_⟩
      rw [List.map_cons, List.cons_append, dsPC_deltaChunk_cons,
        show processDelta m st ⟨none, some ""⟩ = (st, []) from by
          simp [processDelta, truthy, hm], h3]
      simp [List.filter_cons]
    · have hpd : processDelta m st ⟨none, some t⟩ =
          ({ st with accumulated_content := st.accumulated_content ++ t },
           [(Kind.reasoning, t)]) := by
        simp [processDelta, truthy, hm, htE, processThink, ht, hst]
      obtain ⟨st', h1, h2, h3⟩ := ih (fun x hx => hts x (List.mem_cons_of_mem _ hx))
        { st with accumulated_content := st.accumulated_content ++ t } hst
      refine ⟨st', h1, h2, ?_⟩
      rw [List.map_cons, List.cons_append, dsPC_deltaChunk_cons, hpd, h3]
      simp [List.filter_cons, htE]

/-- C3. For the inline-marker branch of `DeepSeekClient.stream_chat` (any
non-`deepseek-reasoner` model), when the open marker arrives in one chunk
and the close marker in a later chunk (chunks before and between them are
marker-free), every delta from the open-marker chunk through the
close-marker chunk is emitted with kind `reasoning` — one logical
reasoning region — and exactly one `(content, "")` transition event is
emitted, immediately after the reasoning event of the close-marker delta. -/
theorem marker_split_single_reasoning_region (m : String) (a : List String)
    (o : String) (b : List String) (cl : String) (c : List String)
    (hm : m ≠ "deepseek-reasoner")
    (ho : strContains o "<think>" = true)
    (ha : ∀ x ∈ a, strContains x "<think>" = false)
    (hb : ∀ x ∈ b, strContains x "</think>" = false)
    (hcl : strContains cl "</think>" = true)
    (hc : ∀ x ∈ c, strContains x "<think>" = false) :
    dsStreamChat m ((a ++ o :: b ++ cl :: c).map deltaChunk) =
      (a.filter (fun t => t != "")).map (fun t => ((Kind.content : Kind), t)) ++
      (Kind.reasoning, o) ::
        (b.filter (fun t => t != "")).map (fun t => ((Kind.reasoning : Kind), t)) ++
      (Kind.reasoning, cl) :: (Kind.content, "") ::
        (c.filter (fun t => t != "")).map (fun t => ((Kind.content : Kind), t)) := by
  have hone : o ≠ "" := by
    intro h; rw [h] at ho; exact absurd ho (by decide)
  have hcne : cl ≠ "" := by
    intro h; rw [h] at hcl; exact absurd hcl (by decide)
  -- final region (after the close marker), from the concrete post-close state
  obtain ⟨s3, hs3c, him3, e3⟩ := region_outside m hm [] c hc ⟨"", false, true⟩ rfl
  rw [List.append_nil] at e3
  have hs3f : s3.has_yielded_content = true := him3 rfl
  have E3 : dsProcessChunks m ⟨"", false, true⟩ (c.map deltaChunk) =
      (s3, (c.filter (fun t => t != "")).map (fun t => ((Kind.content : Kind), t)), false) := by
    rw [e3]; simp [dsProcessChunks]
  -- the close-marker chunk
  have Eclose : ∀ s2 : DSState, s2.is_collecting_think = true →
      dsProcessChunks m s2 (deltaChunk cl :: c.map deltaChunk) =
        (s3, (Kind.reasoning, cl) :: (Kind.content, "") ::
          (c.filter (fun t => t != "")).map (fun t => ((Kind.content : Kind), t)), false) := by
    intro s2 hs2
    have hpd : processDelta m s2 ⟨none, some cl⟩ =
        (⟨"", false, true⟩, [(Kind.reasoning, cl), (Kind.content, "")]) := by
      simp [processDelta, truthy, hm, hcne, processThink, hcl, hs2]
    rw [dsPC_deltaChunk_cons, hpd, E3]
    rfl
  -- the region before the open marker
  obtain ⟨s1, hs1c, _, e1⟩ := region_outside m hm
    (deltaChunk o :: (b.map deltaChunk ++ deltaChunk cl :: c.map deltaChunk)) a ha dsInit rfl
  -- the open-marker chunk at the post-region state
  have hpdo : processDelta m s1 ⟨none, some o⟩ =
      ({ s1 with accumulated_content := s1.accumulated_content ++ o,
                 is_collecting_think := true }, [(Kind.reasoning, o)]) := by
    simp [processDelta, truthy, hm, hone, processThink, ho, hs1c]
  -- the region between the markers, from the post-open state
  obtain ⟨s2, hs2c, _, e2⟩ := region_inside m hm (deltaChunk cl :: c.map deltaChunk) b hb
    { s1 with accumulated_content := s1.accumulated_content ++ o,
              is_collecting_think := true } rfl
  have Eopen : dsProcessChunks m s1
      (deltaChunk o :: (b.map deltaChunk ++ deltaChunk cl :: c.map deltaChunk)) =
      (s3, (Kind.reasoning, o) ::
        ((b.filter (fun t => t != "")).map (fun t => ((Kind.reasoning : Kind), t)) ++
          (Kind.reasoning, cl) :: (Kind.content, "") ::
            (c.filter (fun t => t != "")).map (fun t => ((Kind.content : Kind), t))),
        false) := by
    rw [dsPC_deltaChunk_cons, hpdo, e2, Eclose s2 hs2c]
    rfl
  have Efull : dsProcessChunks m dsInit ((a ++ o :: b ++ cl :: c).map deltaChunk) =
      (s3, (a.filter (fun t => t != "")).map (fun t => ((Kind.content : Kind), t)) ++
        (Kind.reasoning, o) ::
          ((b.filter (fun t => t != "")).map (fun t => ((Kind.reasoning : Kind), t)) ++
            (Kind.reasoning, cl) :: (Kind.content, "") ::
              (c.filter (fun t => t != "")).map (fun t => ((Kind.content : Kind), t))),
        false) := by
    rw [show (a ++ o :: b ++ cl :: c).map deltaChunk =
        a.map deltaChunk ++
          (deltaChunk o :: (b.map deltaChunk ++ deltaChunk cl :: c.map deltaChunk)) from by
      simp, e1, Eopen]
  unfold dsStreamChat
  rw [Efull]
  simp [hs3f]

/-- Witness for C3 at a concrete five-chunk stream with the open marker in
the second chunk and the close marker in the fourth. -/
theorem marker_split_single_reasoning_region_witness :
    ("other" : String) ≠ "deepseek-reasoner" ∧
    strContains "<think>s" "<think>" = true ∧
    (∀ x ∈ ["x"], strContains x "<think>" = false) ∧
    (∀ x ∈ ["mid"], strContains x "</think>" = false) ∧
    strContains "e</think>" "</think>" = true ∧
    (∀ x ∈ ["y"], strContains x "<think>" = false) ∧
    dsStreamChat "other" ((["x"] ++ "<think>s" :: ["mid"] ++ "e</think>" :: ["y"]).map deltaChunk) =
      (["x"].filter (fun t => t != "")).map (fun t => ((Kind.content : Kind), t)) ++
      (Kind.reasoning, "<think>s") ::
        (["mid"].filter (fun t => t != "")).map (fun t => ((Kind.reasoning : Kind), t)) ++
      (Kind.reasoning, "e</think>") :: (Kind.content, "") ::
        (["y"].filter (fun t => t != "")).map (fun t => ((Kind.content : Kind), t)) :=
  ⟨by decide, by decide, by decide, by decide, by decide, by decide,
   marker_split_single_reasoning_region "other" ["x"] "<think>s" ["mid"] "e</think>" ["y"]
     (by decide) (by decide) (by decide) (by decide) (by decide) (by decide)⟩

/-! ## Ordering of the merged output (C7) -/

/-- Is an action an output-sink envelope write? -/
def isOutB : Action → Bool
  | Action.out _ => true
  | _ => false

/-- A trace segment containing no envelope writes. -/
def noOut (as : List Action) : Bool :=
  as.all fun a => !isOutB a

theorem outFrames_cons_not_out {a : Action} (h : isOutB a = false)
    (l : List Action) : outFrames (a :: l) = outFrames l := by
  cases a with
  | out f => simp [isOutB] at h
  | push s => rfl
  | take => rfl
  | fin => rfl

theorem outFrames_shape (fs : List Frame) (rest : List Action)
    (h : noOut rest = true) :
    outFrames (fs.map Action.out ++ rest) = fs := by
  unfold outFrames
  rw [List.filterMap_append]
  rw [show List.filterMap _ rest = ([] : List Frame) from ?_]
  · rw [List.append_nil, List.filterMap_map]
    exact List.filterMap_eq_map _ ▸ (by simp)
  · rw [List.filterMap_eq_nil_iff]
    intro a ha
    have := List.all_eq_true.mp h a ha
    cases a <;> simp_all [isOutB]

theorem interleave_noOut {xs ys zs : List Action} (h : Interleave xs ys zs)
    (hx : noOut xs = true) : outFrames zs = outFrames ys := by
  induction h with
  | nil => rfl
  | @left x xs' ys' zs' h ih =>
    have hcons := List.all_eq_true.mp hx
    have hxo : isOutB x = false := by
      have := hcons x (List.mem_cons_self ..)
      simp at this
      exact this
    have hx' : noOut xs' = true :=
      List.all_eq_true.mpr fun a ha => hcons a (List.mem_cons_of_mem _ ha)
    rw [outFrames_cons_not_out hxo]
    exact ih hx'
  | @right y xs' ys' zs' h ih =>
    cases hy : isOutB y with
    | true =>
      cases y with
      | out f =>
        show outFrames (Action.out f :: zs') = outFrames (Action.out f :: ys')
        show f :: outFrames zs' = f :: outFrames ys'
        rw [ih hx]
      | push s => simp [isOutB] at hy
      | take => simp [isOutB] at hy
      | fin => simp [isOutB] at hy
    | false =>
      rw [outFrames_cons_not_out hy, outFrames_cons_not_out hy]
      exact ih hx

theorem interleave_take {xs ys zs : List Action} (h : Interleave xs ys zs) :
    ∀ (fs : List Frame) (rest ys' : List Action),
      xs = fs.map Action.out ++ rest → noOut rest = true →
      ys = Action.take :: ys' → validFrom 0 zs = true →
      outFrames zs = fs ++ outFrames ys' := by
  induction h with
  | nil =>
    intro fs rest ys' _ _ hys _
    exact absurd hys (by simp)
  | @left x xs' ys' zs' h ih =>
    intro fs rest ys'' hxs hrest hys hv
    cases fs with
    | nil =>
      simp only [List.map_nil, List.nil_append] at hxs
      subst hxs
      have hcons := List.all_eq_true.mp hrest
      have hxo : isOutB x = false := by
        have := hcons x (List.mem_cons_self ..)
        simp at this
        exact this
      have hx' : noOut xs' = true :=
        List.all_eq_true.mpr fun a ha => hcons a (List.mem_cons_of_mem _ ha)
      rw [outFrames_cons_not_out hxo, interleave_noOut h hx', hys]
      rfl
    | cons f fs' =>
      rw [List.map_cons, List.cons_append, List.cons.injEq] at hxs
      obtain ⟨hx1, hx2⟩ := hxs
      subst hx1
      have hv' : validFrom 0 zs' = true := hv
      rw [show outFrames (Action.out f :: zs') = f :: outFrames zs' from rfl,
        ih fs' rest ys'' hx2 hrest hys hv']
      rfl
  | @right y xs' ys' zs' h ih =>
    intro fs rest ys'' hxs hrest hys hv
    rw [List.cons.injEq] at hys
    obtain ⟨hy1, hy2⟩ := hys
    subst hy1
    simp [validFrom] at hv

theorem dsLoop_shape (cid : String) (ct : Nat) (m : String) (evs : List Event) :
    ∀ acc, ∃ (fs : List Frame) (rest : List Action),
      (dsLoop cid ct m acc evs).1 = fs.map Action.out ++ rest ∧ noOut rest = true := by
  induction evs with
  | nil => intro acc; exact ⟨[], [], rfl, rfl⟩
  | cons e rest' ih =>
    intro acc
    obtain ⟨k, c⟩ := e
    by_cases hc : c = ""
    · subst hc
      exact ih acc
    · cases k with
      | reasoning =>
        obtain ⟨fs, r, h1, h2⟩ := ih (acc ++ [c])
        refine ⟨dsFrame cid ct m c :: fs, r, ?_, h2⟩
        rw [show (dsLoop cid ct m acc ((Kind.reasoning, c) :: rest')).1 =
          Action.out (dsFrame cid ct m c) :: (dsLoop cid ct m (acc ++ [c]) rest').1 from by
            simp [dsLoop, hc], h1]
        rfl
      | content =>
        refine ⟨[], [Action.push (String.join acc)], ?_, rfl⟩
        simp [dsLoop, hc]
      | answer =>
        obtain ⟨fs, r, h1, h2⟩ := ih acc
        refine ⟨fs, r, ?_, h2⟩
        rw [show dsLoop cid ct m acc ((Kind.answer, c) :: rest') =
          dsLoop cid ct m acc rest' from by simp [dsLoop, hc]]
        exact h1

theorem process_deepseek_shape (cid : String) (ct : Nat) (m : String)
    (evs : List Event) (fails : Bool) :
    ∃ (fs : List Frame) (rest : List Action),
      process_deepseek cid ct m evs fails = fs.map Action.out ++ rest ∧
      noOut rest = true ∧
      outFrames (process_deepseek cid ct m evs fails) = fs := by
  obtain ⟨fs, r, h1, h2⟩ := dsLoop_shape cid ct m evs []
  have hdef : process_deepseek cid ct m evs fails =
      (if (!(dsLoop cid ct m [] evs).2 && fails) = true
        then (dsLoop cid ct m [] evs).1 ++ [Action.push ""]
        else (dsLoop cid ct m [] evs).1) ++ [Action.fin] := rfl
  have hno : ∀ extra : List Action, (extra.all fun a => !isOutB a) = true →
      noOut (r ++ extra) = true := by
    intro extra hx
    unfold noOut at h2 ⊢
    rw [List.all_append, h2, hx]
    rfl
  by_cases hb : (!(dsLoop cid ct m [] evs).2 && fails) = true
  · refine ⟨fs, r ++ [Action.push "", Action.fin], ?_, hno _ rfl, ?_⟩
    · rw [hdef, if_pos hb, h1]
      simp
    · rw [hdef, if_pos hb, h1,
        show (fs.map Action.out ++ r ++ [Action.push ""]) ++ [Action.fin] =
          fs.map Action.out ++ (r ++ [Action.push "", Action.fin]) from by simp]
      exact outFrames_shape fs _ (hno _ rfl)
  · refine ⟨fs, r ++ [Action.fin], ?_, hno _ rfl, ?_⟩
    · rw [hdef, if_neg hb, h1]
      simp
    · rw [hdef, if_neg hb, h1,
        show (fs.map Action.out ++ r) ++ [Action.fin] =
          fs.map Action.out ++ (r ++ [Action.fin]) from by simp]
      exact outFrames_shape fs _ (hno _ rfl)

/-- C7. In any valid schedule of the two task traces (no handoff read
served before the handoff write), the envelopes of the merged output are
exactly the envelopes of the Reasoning-Provider task followed by the
envelopes of the Answer-Provider task: every reasoning envelope precedes every
answer envelope, because the Answer-Provider task blocks on the handoff
before its first write and the handoff value is only pushed after the
last envelope write of the Reasoning-Provider task. -/
theorem reasoning_frames_precede_answer_frames (cid : String) (ct : Nat)
    (dm cm : String) (evs evs' : List Event) (fails : Bool)
    (merged : List Action)
    (hI : Interleave (process_deepseek cid ct dm evs fails)
      (process_claude_trace cid ct cm evs') merged)
    (hV : validFrom 0 merged = true) :
    outFrames merged =
      outFrames (process_deepseek cid ct dm evs fails) ++
        outFrames (process_claude_trace cid ct cm evs') := by
  obtain ⟨fs, rest, h1, h2, h3⟩ := process_deepseek_shape cid ct dm evs fails
  have hmain := interleave_take hI fs rest (claudeLoop cid ct cm evs' ++ [Action.fin])
    h1 h2 rfl hV
  rw [hmain, h3, outFrames_process_claude]
  rw [show outFrames (claudeLoop cid ct cm evs' ++ [Action.fin]) =
    outFrames (claudeLoop cid ct cm evs') from by
      unfold outFrames
      rw [List.filterMap_append]
      simp]

/-- Witness for C7 at a concrete schedule of a two-event reasoning stream
and a one-event answer stream. -/
theorem reasoning_frames_precede_answer_frames_witness :
    Interleave (process_deepseek "i" 0 "m" [(Kind.reasoning, "a"), (Kind.content, "x")] false)
      (process_claude_trace "i" 0 "c" [(Kind.answer, "b")])
      [Action.out (dsFrame "i" 0 "m" "a"), Action.push (String.join ["a"]), Action.take,
        Action.out (claudeFrame "i" 0 "c" "b"), Action.fin, Action.fin] ∧
    validFrom 0 [Action.out (dsFrame "i" 0 "m" "a"), Action.push (String.join ["a"]),
      Action.take, Action.out (claudeFrame "i" 0 "c" "b"), Action.fin, Action.fin] = true ∧
    outFrames [Action.out (dsFrame "i" 0 "m" "a"), Action.push (String.join ["a"]),
      Action.take, Action.out (claudeFrame "i" 0 "c" "b"), Action.fin, Action.fin] =
      outFrames (process_deepseek "i" 0 "m" [(Kind.reasoning, "a"), (Kind.content, "x")] false) ++
        outFrames (process_claude_trace "i" 0 "c" [(Kind.answer, "b")]) := by
  have hI : Interleave
      (process_deepseek "i" 0 "m" [(Kind.reasoning, "a"), (Kind.content, "x")] false)
      (process_claude_trace "i" 0 "c" [(Kind.answer, "b")])
      [Action.out (dsFrame "i" 0 "m" "a"), Action.push (String.join ["a"]), Action.take,
        Action.out (claudeFrame "i" 0 "c" "b"), Action.fin, Action.fin] := by
    show Interleave
      [Action.out (dsFrame "i" 0 "m" "a"), Action.push (String.join ["a"]), Action.fin]
      [Action.take, Action.out (claudeFrame "i" 0 "c" "b"), Action.fin] _
    exact .left (.left (.right (.right (.left (.right .nil)))))
  exact ⟨hI, rfl,
    reasoning_frames_precede_answer_frames "i" 0 "m" "c"
      [(Kind.reasoning, "a"), (Kind.content, "x")] [(Kind.answer, "b")] false _ hI rfl⟩

end DeepClaude
